import Mathlib

/-!
Shallow embedding of the permission-aware project/task service layer of the
Codealpha Project-Management-Tool repository
(`server/services/projectService.js`, `server/services/taskService.js`).

The relational store is modelled as explicit lists of rows; each service
method becomes a pure function from a `State` (plus its arguments) to an
`Except Err` result, translated clause by clause from the JavaScript source.
JavaScript string truthiness (`if (status)`, `status || 'To Do'`) is modelled
by explicit emptiness tests; Prisma's `mode: 'insensitive'` substring match is
modelled by lowercasing both sides; `new Date()` timestamps are modelled by an
explicit `now : Nat` parameter.  Result ordering (`orderBy`) of list queries is
not modelled except for the column ordering of `getProjectById`, which the
round-trip claim depends on; all other claims are about membership of result
sets, not their order.
-/

deriving instance DecidableEq for Except

namespace PMT

abbrev Id := Nat

/-- A row of the `User` table (only the fields the services read). -/
structure User where
  id : Id
  email : String
deriving Repr, DecidableEq, Inhabited

/-- A row of the `Project` table (fields read or written by the services).
`status` defaults to `"ACTIVE"` at creation (schema default; `createProject`
does not set it). -/
structure Project where
  id : Id
  name : String
  description : String
  status : String
  priority : String
  color : String
  dueDate : Option Nat
  ownerId : Id
deriving Repr, DecidableEq, Inhabited

/-- A row of the `ProjectMember` junction table.  The role is stored as a
string, exactly as the services do (`addMember` stores `role.toUpperCase()`),
and compared against the literals `"OWNER"` / `"ADMIN"`. -/
structure ProjectMember where
  userId : Id
  projectId : Id
  role : String
deriving Repr, DecidableEq, Inhabited

/-- A row of the `ProjectColumn` table. -/
structure ProjectColumn where
  projectId : Id
  name : String
  order : Nat
  color : String
deriving Repr, DecidableEq, Inhabited

/-- A row of the `ProjectTag` table. -/
structure ProjectTag where
  id : Id
  projectId : Id
  name : String
deriving Repr, DecidableEq, Inhabited

/-- A row of the `Task` table (fields read or written by the services). -/
structure Task where
  id : Id
  title : String
  description : String
  projectId : Id
  creatorId : Id
  assigneeId : Option Id
  status : String
  priority : String
  dueDate : Option Nat
  estimatedHours : Option Nat
  completedDate : Option Nat
  position : Int
  isArchived : Bool
deriving Repr, DecidableEq, Inhabited

/-- A row of the `Comment` table. -/
structure Comment where
  id : Id
  taskId : Id
  authorId : Id
  content : String
  isEdited : Bool
deriving Repr, DecidableEq, Inhabited

/-- A row of the `TaskWatcher` junction table. -/
structure TaskWatcher where
  userId : Id
  taskId : Id
deriving Repr, DecidableEq, Inhabited

/-- A row of the `TaskTag` junction table. -/
structure TaskTag where
  taskId : Id
  tagId : Id
deriving Repr, DecidableEq, Inhabited

/-- The relational store.  `nextId` supplies fresh row identifiers (the store
itself uses opaque unique tokens; freshness is all the services rely on). -/
structure State where
  users : List User
  projects : List Project
  members : List ProjectMember
  columns : List ProjectColumn
  projectTags : List ProjectTag
  tasks : List Task
  comments : List Comment
  watchers : List TaskWatcher
  taskTags : List TaskTag
  nextId : Id
deriving Repr, DecidableEq, Inhabited

/-- The distinct failure messages thrown by the two services, one constructor
per distinct `throw new Error(...)` message. -/
inductive Err where
  | projectNotFoundOrDenied
  | insufficientToUpdateProject
  | onlyOwnerCanDelete
  | insufficientToAddMembers
  | userNotFound
  | alreadyMember
  | insufficientToRemoveMembers
  | cannotRemoveOwner
  | notAProjectMember
  | assigneeNotMember
  | taskNotFound
  | insufficientToEditTask
  | insufficientToDeleteTask
  | commentNotFound
  | onlyOwnComments
  | insufficientToDeleteComment
  | storeRecordNotFound
deriving Repr, DecidableEq, Inhabited

/-! ### String helpers (JS `toLowerCase`/`toUpperCase`, Prisma insensitive `contains`) -/

/-- ASCII lowercasing of a string (models JS `toLowerCase` / Prisma
`mode: 'insensitive'` on the identifiers and names the services handle). -/
def lowerStr (s : String) : String :=
  String.mk (s.data.map Char.toLower)

/-- ASCII uppercasing of a string (models JS `toUpperCase`). -/
def upperStr (s : String) : String :=
  String.mk (s.data.map Char.toUpper)

/-- `leadMatch needle hay`: `needle` is an initial segment of `hay`. -/
def leadMatch : List Char → List Char → Bool
  | [], _ => true
  | _ :: _, [] => false
  | a :: as, b :: bs => a == b && leadMatch as bs

/-- `containsSub hay needle`: `needle` occurs as a contiguous segment of
`hay`. -/
def containsSub : List Char → List Char → Bool
  | [], needle => needle.isEmpty
  | h :: t, needle => leadMatch needle (h :: t) || containsSub t needle

/-- Case-insensitive substring match, modelling Prisma
`{ contains: search, mode: 'insensitive' }`. -/
def ciContains (hay needle : String) : Bool :=
  containsSub (hay.data.map Char.toLower) (needle.data.map Char.toLower)

/-- JS `s || dflt` for an optional string field: the default applies both when
the field is absent and when it is the (falsy) empty string. -/
def jsOr (o : Option String) (dflt : String) : String :=
  match o with
  | some s => if s == "" then dflt else s
  | none => dflt

/-! ### Membership queries (`projectService.isProjectMember`, `getUserRole`) -/

/-- `prisma.projectMember.findUnique({ userId_projectId })`. -/
def findMember (st : State) (projectId userId : Id) : Option ProjectMember :=
  st.members.find? (fun m => m.userId == userId && m.projectId == projectId)

/-- `projectService.isProjectMember`: true iff a membership row exists. -/
def isProjectMember (st : State) (projectId userId : Id) : Bool :=
  (findMember st projectId userId).isSome

/-- `projectService.getUserRole`: the membership row's role, or none. -/
def getUserRole (st : State) (projectId userId : Id) : Option String :=
  (findMember st projectId userId).map (fun m => m.role)

/-- The access condition of `getProjectById` / `getUserProjects`:
`OR: [{ ownerId: userId }, { members: { some: { userId } } }]`. -/
def accessibleBy (st : State) (p : Project) (userId : Id) : Bool :=
  p.ownerId == userId ||
    st.members.any (fun m => m.projectId == p.id && m.userId == userId)

/-! ### `projectService.getProjectById` -/

/-- `getProjectById(id, userId)`: `findFirst` on id AND accessibility; a
missing project and an inaccessible project produce the same single error
(`'Project not found or access denied'`). -/
def getProjectById (st : State) (id userId : Id) : Except Err Project :=
  match st.projects.find? (fun p => p.id == id && accessibleBy st p userId) with
  | some p => Except.ok p
  | none => Except.error Err.projectNotFoundOrDenied

/-- Insert a column into a list sorted by ascending `order`. -/
def insertCol (c : ProjectColumn) : List ProjectColumn → List ProjectColumn
  | [] => [c]
  | d :: ds => if c.order ≤ d.order then c :: d :: ds else d :: insertCol c ds

/-- Sort columns by ascending `order` (the `orderBy: { order: 'asc' }` of the
`columns` include of `getProjectById`). -/
def sortCols : List ProjectColumn → List ProjectColumn
  | [] => []
  | c :: cs => insertCol c (sortCols cs)

/-- The columns of a project as `getProjectById` returns them: the project's
column rows ordered by ascending `order`. -/
def columnsOf (st : State) (projectId : Id) : List ProjectColumn :=
  sortCols (st.columns.filter (fun c => c.projectId == projectId))

/-- `getProjectById` together with its `columns` include (the part of the
hydrated result the round-trip claim is about). -/
def getProjectByIdFull (st : State) (id userId : Id) :
    Except Err (Project × List ProjectColumn) :=
  match getProjectById st id userId with
  | Except.ok p => Except.ok (p, columnsOf st p.id)
  | Except.error e => Except.error e

/-! ### `projectService.getUserProjects` -/

structure ProjectFilters where
  status : Option String
  search : Option String
  page : Nat
  limit : Nat
deriving Repr, DecidableEq, Inhabited

/-- The `where` object built by `getUserProjects`.  Translated exactly from
the source: the base `OR` is owner-or-member, a truthy `status` adds an
uppercased status equality, and a truthy `search` OVERWRITES the `OR` key with
the name/description substring match (so the owner-or-member condition is
dropped whenever a search term is given). -/
def projectWhere (st : State) (userId : Id) (f : ProjectFilters) (p : Project) : Bool :=
  let baseOr := accessibleBy st p userId
  let orCond :=
    match f.search with
    | some s => if s == "" then baseOr else
        (ciContains p.name s || ciContains p.description s)
    | none => baseOr
  let statusOk :=
    match f.status with
    | some s => if s == "" then true else p.status == upperStr s
    | none => true
  orCond && statusOk

/-- `getUserProjects(userId, filters)`: the page of matching projects
(`skip = (page-1)*limit`, `take = limit`) together with the total count.
Ordering (`updatedAt desc`) is not modelled; the claims are about membership
of the result set. -/
def getUserProjects (st : State) (userId : Id) (f : ProjectFilters) :
    List Project × Nat :=
  let matched := st.projects.filter (projectWhere st userId f)
  ((matched.drop ((f.page - 1) * f.limit)).take f.limit, matched.length)

/-! ### `projectService.createProject` -/

/-- The argument object of `createProject` (destructured fields). -/
structure ProjectData where
  name : String
  description : String
  dueDate : Option Nat
  priority : Option String
  color : Option String
  tags : List String
deriving Repr, DecidableEq, Inhabited

/-- The four default columns seeded by `createProject`. -/
def defaultColumns (projectId : Id) : List ProjectColumn :=
  [ { projectId, name := "To Do", order := 0, color := "#EF4444" },
    { projectId, name := "In Progress", order := 1, color := "#F59E0B" },
    { projectId, name := "Review", order := 2, color := "#8B5CF6" },
    { projectId, name := "Done", order := 3, color := "#10B981" } ]

/-- `createProject(projectData, ownerId)`: in one transaction, insert the
project, insert `ProjectMember(ownerId, OWNER)`, insert the four default
columns and any supplied tags.  Returns the new state and the project row. -/
def createProject (st : State) (d : ProjectData) (ownerId : Id) : State × Project :=
  let pid := st.nextId
  let p : Project :=
    { id := pid, name := d.name, description := d.description,
      status := "ACTIVE",
      priority := (d.priority.getD "MEDIUM"),
      color := (d.color.getD "#3B82F6"),
      dueDate := d.dueDate, ownerId }
  let newTags := d.tags.map (fun t => ProjectTag.mk (pid + 1) pid t)
  ({ st with
      projects := st.projects ++ [p],
      members := st.members ++ [⟨ownerId, pid, "OWNER"⟩],
      columns := st.columns ++ defaultColumns pid,
      projectTags := st.projectTags ++ newTags,
      nextId := st.nextId + 1 }, p)

/-! ### `projectService.addMember` / `removeMember` -/

/-- The editor check shared by `updateProject`/`addMember`/`removeMember`:
the caller's membership row in the fetched project must have role OWNER or
ADMIN. -/
def isEditorOf (st : State) (projectId userId : Id) : Bool :=
  match findMember st projectId userId with
  | some m => m.role == "OWNER" || m.role == "ADMIN"
  | none => false

/-- `addMember(projectId, email, role, userId)`: fetch the project as the
caller (NotFoundOrDenied on failure), require OWNER/ADMIN role, look the user
up by lowercased email, reject an existing member, then insert a membership
row whose role is the UPPERCASED requested role (the service itself does not
restrict which role may be requested). -/
def addMember (st : State) (projectId : Id) (email : String) (role : String)
    (userId : Id) : Except Err State :=
  match getProjectById st projectId userId with
  | Except.error _ => Except.error Err.projectNotFoundOrDenied
  | Except.ok _ =>
    if ¬ (isEditorOf st projectId userId) then
      Except.error Err.insufficientToAddMembers
    else
      match st.users.find? (fun u => u.email == lowerStr email) with
      | none => Except.error Err.userNotFound
      | some u =>
        if (findMember st projectId u.id).isSome then
          Except.error Err.alreadyMember
        else
          Except.ok { st with
            members := st.members ++ [⟨u.id, projectId, upperStr role⟩] }

/-- `removeMember(projectId, memberUserId, userId)`: fetch the project as the
caller, require OWNER/ADMIN role, refuse to remove the project owner, then
delete the membership row (Prisma `delete` fails if the row is absent). -/
def removeMember (st : State) (projectId memberUserId userId : Id) :
    Except Err State :=
  match getProjectById st projectId userId with
  | Except.error _ => Except.error Err.projectNotFoundOrDenied
  | Except.ok p =>
    if ¬ (isEditorOf st projectId userId) then
      Except.error Err.insufficientToRemoveMembers
    else if p.ownerId == memberUserId then
      Except.error Err.cannotRemoveOwner
    else if (findMember st projectId memberUserId).isSome then
      Except.ok { st with
        members := st.members.filter
          (fun m => ¬ (m.userId == memberUserId && m.projectId == projectId)) }
    else
      Except.error Err.storeRecordNotFound

/-! ### `taskService.createTask` -/

/-- The argument object of `createTask` (destructured fields). -/
structure TaskData where
  title : String
  description : String
  assigneeId : Option Id
  status : Option String
  priority : Option String
  dueDate : Option Nat
  estimatedHours : Option Nat
  tags : List String
deriving Repr, DecidableEq, Inhabited

/-- The position (greatest `position` field) of the `findFirst` with
`orderBy: { position: 'desc' }` over a lane, or `none` for an empty lane. -/
def bestPosition : List Task → Option Int
  | [] => none
  | t :: ts =>
    match bestPosition ts with
    | none => some t.position
    | some m => some (max t.position m)

/-- The find-or-create tag loop of `createTask`: for each tag name, reuse the
project's tag row of that name or create one, then link it to the task. -/
def addTagsForTask (projectId taskId : Id) : List String → State → State
  | [], st => st
  | tname :: rest, st =>
    match st.projectTags.find? (fun g => g.name == tname && g.projectId == projectId) with
    | some g =>
      addTagsForTask projectId taskId rest
        { st with taskTags := st.taskTags ++ [⟨taskId, g.id⟩] }
    | none =>
      addTagsForTask projectId taskId rest
        { st with
          projectTags := st.projectTags ++ [⟨st.nextId, projectId, tname⟩],
          taskTags := st.taskTags ++ [⟨taskId, st.nextId⟩],
          nextId := st.nextId + 1 }

/-- The project+status lane of `createTask`'s position query:
`where: { projectId, status: status || 'To Do' }`. -/
def laneOf (st : State) (projectId : Id) (stat : String) : List Task :=
  st.tasks.filter (fun t => t.projectId == projectId && t.status == stat)

/-- `const position = lastTask ? lastTask.position + 1 : 0` where `lastTask`
is the lane row with the greatest position (`orderBy: { position: 'desc' }`). -/
def nextPosition (st : State) (projectId : Id) (stat : String) : Int :=
  match bestPosition (laneOf st projectId stat) with
  | none => 0
  | some m => m + 1

/-- The task row inserted by `createTask` (note: `completedDate` is not among
the inserted fields, whatever the initial status). -/
def builtTask (st : State) (d : TaskData) (projectId creatorId : Id) : Task :=
  { id := st.nextId, title := d.title, description := d.description,
    projectId, creatorId, assigneeId := d.assigneeId,
    status := jsOr d.status "To Do", priority := jsOr d.priority "MEDIUM",
    dueDate := d.dueDate, estimatedHours := d.estimatedHours,
    completedDate := none,
    position := nextPosition st projectId (jsOr d.status "To Do"),
    isArchived := false }

/-- `createTask(taskData, projectId, creatorId)`: require creator membership;
require assignee membership when an assignee is given; compute the position as
one past the greatest position in the same project+status lane (status
defaulting to `'To Do'`, also for the lane query), or 0 for an empty lane;
then transactionally insert the task, the creator watcher, the assignee
watcher if distinct, and the tag links. -/
def createTask (st : State) (d : TaskData) (projectId creatorId : Id) :
    Except Err (State × Task) :=
  if ¬ (isProjectMember st projectId creatorId) then
    Except.error Err.notAProjectMember
  else if (match d.assigneeId with
           | some a => !(isProjectMember st projectId a)
           | none => false) then
    Except.error Err.assigneeNotMember
  else
    let task := builtTask st d projectId creatorId
    let ws : List TaskWatcher :=
      ⟨creatorId, task.id⟩ ::
        (match d.assigneeId with
         | some a => if a ≠ creatorId then [⟨a, task.id⟩] else []
         | none => [])
    let st1 := { st with
      tasks := st.tasks ++ [task],
      watchers := st.watchers ++ ws,
      nextId := st.nextId + 1 }
    Except.ok (addTagsForTask projectId task.id d.tags st1, task)

/-! ### `taskService.getProjectTasks` / `getTaskById` -/

structure TaskFilters where
  status : Option String
  assigneeId : Option Id
  priority : Option String
  search : Option String
deriving Repr, DecidableEq, Inhabited

def noTaskFilters : TaskFilters := ⟨none, none, none, none⟩

/-- The `where` object built by `getProjectTasks`: always `projectId` and
`isArchived: false`; truthy `status`/`assigneeId`/`priority`/`search` add
their clauses (here the search `OR` overwrites nothing, unlike
`getUserProjects`). -/
def taskWhere (projectId : Id) (f : TaskFilters) (t : Task) : Bool :=
  t.projectId == projectId && t.isArchived == false &&
  (match f.status with
   | some s => if s == "" then true else t.status == s
   | none => true) &&
  (match f.assigneeId with
   | some a => t.assigneeId == some a
   | none => true) &&
  (match f.priority with
   | some s => if s == "" then true else t.priority == upperStr s
   | none => true) &&
  (match f.search with
   | some s => if s == "" then true else
      (ciContains t.title s || ciContains t.description s)
   | none => true)

/-- `getProjectTasks(projectId, userId, filters)`: require membership, then
return the non-archived matching tasks of the project (result ordering not
modelled). -/
def getProjectTasks (st : State) (projectId userId : Id) (f : TaskFilters) :
    Except Err (List Task) :=
  if ¬ (isProjectMember st projectId userId) then
    Except.error Err.notAProjectMember
  else
    Except.ok (st.tasks.filter (taskWhere projectId f))

/-- `getTaskById(id, userId)`: `findUnique` by id (no archived filter), then
require the caller's membership of the task's project. -/
def getTaskById (st : State) (id userId : Id) : Except Err Task :=
  match st.tasks.find? (fun t => t.id == id) with
  | none => Except.error Err.taskNotFound
  | some t =>
    if ¬ (isProjectMember st t.projectId userId) then
      Except.error Err.notAProjectMember
    else
      Except.ok t

/-! ### `taskService.updateTask` / `deleteTask` -/

/-- The update object of `updateTask` (route-level callers pass every key,
absent ones as `undefined`, which Prisma skips — modelled as `none`).
`completedDate` may be supplied by a caller but is overwritten by the derived
expression in the service. -/
structure TaskPatch where
  title : Option String
  description : Option String
  assigneeId : Option Id
  status : Option String
  priority : Option String
  dueDate : Option Nat
  estimatedHours : Option Nat
  actualHours : Option Nat
  position : Option Int
  isArchived : Option Bool
  completedDate : Option Nat
deriving Repr, DecidableEq, Inhabited

/-- The `canEdit` condition of `updateTask`: creator, or current assignee, or
OWNER/ADMIN role on the task's project. -/
def canEditTask (st : State) (t : Task) (userId : Id) : Bool :=
  t.creatorId == userId || t.assigneeId == some userId ||
    getUserRole st t.projectId userId == some "OWNER" ||
    getUserRole st t.projectId userId == some "ADMIN"

/-- The `canDelete` condition of `deleteTask`: creator or OWNER/ADMIN role. -/
def canDeleteTask (st : State) (t : Task) (userId : Id) : Bool :=
  t.creatorId == userId ||
    getUserRole st t.projectId userId == some "OWNER" ||
    getUserRole st t.projectId userId == some "ADMIN"

/-- The `data` object of the Prisma update in `updateTask`, applied to the
task row.  `completedDate` is overwritten by the derived conditional: `now`
when the incoming status is `'Done'`/`'Completed'`; `null` when a truthy
(non-empty) other status is given; untouched (`undefined`) otherwise — so a
`completedDate` in the patch never takes effect. -/
def applyPatch (t : Task) (p : TaskPatch) (now : Nat) : Task :=
  { t with
    title := p.title.getD t.title,
    description := p.description.getD t.description,
    assigneeId := (match p.assigneeId with
                   | some a => some a
                   | none => t.assigneeId),
    status := p.status.getD t.status,
    priority := p.priority.getD t.priority,
    dueDate := (match p.dueDate with
                | some d => some d
                | none => t.dueDate),
    estimatedHours := (match p.estimatedHours with
                       | some h => some h
                       | none => t.estimatedHours),
    position := p.position.getD t.position,
    isArchived := p.isArchived.getD t.isArchived,
    completedDate :=
      match p.status with
      | some s =>
        if s == "Done" || s == "Completed" then some now
        else if s == "" then t.completedDate else none
      | none => t.completedDate }

/-- `updateTask(id, updateData, userId)`: load via `getTaskById` (membership
check), test `canEdit`, apply the patch, and add the new assignee as a watcher
when the assignee changed (idempotently). -/
def updateTask (st : State) (id : Id) (p : TaskPatch) (userId : Id) (now : Nat) :
    Except Err (State × Task) :=
  match getTaskById st id userId with
  | Except.error e => Except.error e
  | Except.ok t =>
    if ¬ (canEditTask st t userId) then
      Except.error Err.insufficientToEditTask
    else
      let t' := applyPatch t p now
      let st1 := { st with
        tasks := st.tasks.map (fun x => if x.id == id then t' else x) }
      let st2 :=
        match p.assigneeId with
        | some a =>
          if some a ≠ t.assigneeId ∧
              ¬ (st1.watchers.any (fun w => w.userId == a && w.taskId == id)) then
            { st1 with watchers := st1.watchers ++ [⟨a, id⟩] }
          else st1
        | none => st1
      Except.ok (st2, t')

/-- `deleteTask(id, userId)`: load via `getTaskById`, test `canDelete`, then
delete the task row (cascading to its comments, watchers and tag links). -/
def deleteTask (st : State) (id userId : Id) : Except Err State :=
  match getTaskById st id userId with
  | Except.error e => Except.error e
  | Except.ok t =>
    if ¬ (canDeleteTask st t userId) then
      Except.error Err.insufficientToDeleteTask
    else
      Except.ok { st with
        tasks := st.tasks.filter (fun x => ¬ (x.id == id)),
        comments := st.comments.filter (fun c => ¬ (c.taskId == id)),
        watchers := st.watchers.filter (fun w => ¬ (w.taskId == id)),
        taskTags := st.taskTags.filter (fun g => ¬ (g.taskId == id)) }

/-! ### `taskService.addComment` / `updateComment` / `deleteComment` -/

/-- `addComment(taskId, content, authorId)`: load the task via `getTaskById`
(membership check), insert the comment, and idempotently add the author as a
watcher. -/
def addComment (st : State) (taskId : Id) (content : String) (authorId : Id) :
    Except Err (State × Comment) :=
  match getTaskById st taskId authorId with
  | Except.error e => Except.error e
  | Except.ok _ =>
    let c : Comment :=
      { id := st.nextId, taskId, authorId, content, isEdited := false }
    let st1 := { st with
      comments := st.comments ++ [c], nextId := st.nextId + 1 }
    let st2 :=
      if ¬ (st1.watchers.any (fun w => w.userId == authorId && w.taskId == taskId)) then
        { st1 with watchers := st1.watchers ++ [⟨authorId, taskId⟩] }
      else st1
    Except.ok (st2, c)

/-- `updateComment(taskId, commentId, content, userId)`: load the task via
`getTaskById` (membership check) BEFORE any authorship check, find the
comment, require the caller to be its author, then update content and set the
edited flag. -/
def updateComment (st : State) (taskId commentId : Id) (content : String)
    (userId : Id) : Except Err (State × Comment) :=
  match getTaskById st taskId userId with
  | Except.error e => Except.error e
  | Except.ok _ =>
    match st.comments.find? (fun c => c.id == commentId) with
    | none => Except.error Err.commentNotFound
    | some c =>
      if ¬ (c.authorId == userId) then
        Except.error Err.onlyOwnComments
      else
        let c' := { c with content, isEdited := true }
        Except.ok ({ st with
          comments := st.comments.map (fun d => if d.id == commentId then c' else d) },
          c')

/-- `deleteComment(taskId, commentId, userId)`: load the task via
`getTaskById` (membership check, performed before and again after the comment
lookup), find the comment, allow the author or an OWNER/ADMIN of the task's
project, then delete the row. -/
def deleteComment (st : State) (taskId commentId userId : Id) :
    Except Err State :=
  match getTaskById st taskId userId with
  | Except.error e => Except.error e
  | Except.ok _ =>
    match st.comments.find? (fun c => c.id == commentId) with
    | none => Except.error Err.commentNotFound
    | some c =>
      match getTaskById st taskId userId with
      | Except.error e => Except.error e
      | Except.ok t =>
        if ¬ (c.authorId == userId ||
              getUserRole st t.projectId userId == some "OWNER" ||
              getUserRole st t.projectId userId == some "ADMIN") then
          Except.error Err.insufficientToDeleteComment
        else
          Except.ok { st with
            comments := st.comments.filter (fun d => ¬ (d.id == commentId)) }

/-! ### Invariants and well-formedness -/

/-- Boolean duplicate-freedom of a list of identifiers. -/
def nodupB : List Id → Bool
  | [] => true
  | x :: xs => xs.all (fun y => y ≠ x) && nodupB xs

/-- The OWNER membership rows of a project. -/
def ownerRows (ms : List ProjectMember) (p : Project) : List ProjectMember :=
  ms.filter (fun m => m.projectId == p.id && m.role == "OWNER")

/-- A project has exactly one OWNER membership row and it is the project's
`ownerId`. -/
def ownerRowOk (ms : List ProjectMember) (p : Project) : Bool :=
  match ownerRows ms p with
  | [m] => m.userId == p.ownerId
  | _ => false

/-- The single-OWNER invariant over the whole store. -/
def ownerInvariant (st : State) : Bool :=
  st.projects.all (fun p => ownerRowOk st.members p)

/-- Store well-formedness: every row identifier is below the fresh-id counter,
project identifiers are duplicate-free, and junction rows reference
identifiers below the counter. -/
def WF (st : State) : Bool :=
  st.projects.all (fun p => p.id < st.nextId) &&
  nodupB (st.projects.map (fun p => p.id)) &&
  st.members.all (fun m => m.projectId < st.nextId) &&
  st.columns.all (fun c => c.projectId < st.nextId) &&
  st.tasks.all (fun t => t.id < st.nextId) &&
  st.comments.all (fun c => c.id < st.nextId)

/-- Success test for an `Except` result. -/
def isOkB {α : Type} (e : Except Err α) : Bool :=
  match e with
  | Except.ok _ => true
  | Except.error _ => false

/-- Extract the state of a successful state-valued result (default on
failure); used only to evaluate concrete runs. -/
def okState (e : Except Err State) : State :=
  match e with
  | Except.ok s => s
  | Except.error _ => default

/-- Extract the task of a successful `createTask`/`updateTask` run (default
on failure); used only to evaluate concrete runs. -/
def okTask (e : Except Err (State × Task)) : Task :=
  match e with
  | Except.ok r => r.2
  | Except.error _ => default

/-! ### Helper lemmas -/

theorem find?_append_of_none {α : Type} (l₁ l₂ : List α) (p : α → Bool)
    (h : ∀ x ∈ l₁, p x = false) : (l₁ ++ l₂).find? p = l₂.find? p := by
  induction l₁ with
  | nil => rfl
  | cons a t ih =>
    have ha := h a (by simp)
    simp only [List.cons_append, List.find?, ha]
    exact ih (fun x hx => h x (by simp [hx]))

theorem bestPosition_eq_none {l : List Task} : bestPosition l = none ↔ l = [] := by
  cases l with
  | nil => simp [bestPosition]
  | cons t ts =>
    simp only [bestPosition]
    cases h : bestPosition ts <;> simp

theorem bestPosition_ge {l : List Task} {m : Int} (h : bestPosition l = some m) :
    ∀ x ∈ l, x.position ≤ m := by
  induction l generalizing m with
  | nil => simp [bestPosition] at h
  | cons t ts ih =>
    simp only [bestPosition] at h
    cases hts : bestPosition ts with
    | none =>
      rw [hts] at h
      have hnil : ts = [] := bestPosition_eq_none.mp hts
      cases h
      intro x hx
      rcases List.mem_cons.mp hx with hx | hx
      · subst hx; exact le_refl _
      · rw [hnil] at hx; cases hx
    | some k =>
      rw [hts] at h
      cases h
      intro x hx
      rcases List.mem_cons.mp hx with hx | hx
      · subst hx; exact le_max_left _ _
      · exact le_trans (ih hts x hx) (le_max_right _ _)

theorem bestPosition_mem {l : List Task} {m : Int} (h : bestPosition l = some m) :
    ∃ x ∈ l, x.position = m := by
  induction l generalizing m with
  | nil => simp [bestPosition] at h
  | cons t ts ih =>
    simp only [bestPosition] at h
    cases hts : bestPosition ts with
    | none =>
      rw [hts] at h; cases h
      exact ⟨t, by simp⟩
    | some k =>
      rw [hts] at h; cases h
      rcases le_or_lt t.position k with hle | hlt
      · rcases ih hts with ⟨x, hx, hxp⟩
        exact ⟨x, by simp [hx], by rw [hxp]; exact (max_eq_right hle).symm⟩
      · exact ⟨t, by simp, (max_eq_left (le_of_lt hlt)).symm⟩

theorem addTagsForTask_tasks (pid tid : Id) (tags : List String) (st : State) :
    (addTagsForTask pid tid tags st).tasks = st.tasks := by
  induction tags generalizing st with
  | nil => rfl
  | cons tname rest ih =>
    simp only [addTagsForTask]
    cases st.projectTags.find? (fun g => g.name == tname && g.projectId == pid) <;>
      exact ih _

theorem nodupB_inj {α : Type} (f : α → Id) (l : List α)
    (h : nodupB (l.map f) = true) :
    ∀ a ∈ l, ∀ b ∈ l, f a = f b → a = b := by
  induction l with
  | nil => intro a ha; cases ha
  | cons x xs ih =>
    simp only [List.map_cons, nodupB, Bool.and_eq_true, List.all_eq_true] at h
    obtain ⟨hne, hnd⟩ := h
    intro a ha b hb hfab
    rcases List.mem_cons.mp ha with ha | ha <;> rcases List.mem_cons.mp hb with hb | hb
    · rw [ha, hb]
    · exfalso
      have := hne (f b) (List.mem_map_of_mem f hb)
      rw [ha] at hfab
      simp only [decide_eq_true_eq] at this
      exact this hfab.symm
    · exfalso
      have := hne (f a) (List.mem_map_of_mem f ha)
      rw [hb] at hfab
      simp only [decide_eq_true_eq] at this
      exact this hfab
    · exact ih hnd a ha b hb hfab

theorem ownerRows_append (ms : List ProjectMember) (x : ProjectMember) (p : Project) :
    ownerRows (ms ++ [x]) p =
      ownerRows ms p ++
        (if x.projectId == p.id && x.role == "OWNER" then [x] else []) := by
  simp only [ownerRows, List.filter_append]
  congr 1
  cases h : (x.projectId == p.id && x.role == "OWNER") <;> simp [List.filter, h]

theorem ownerRows_filter (ms : List ProjectMember) (keep : ProjectMember → Bool)
    (p : Project) :
    ownerRows (ms.filter keep) p = (ownerRows ms p).filter keep := by
  simp only [ownerRows]
  induction ms with
  | nil => rfl
  | cons m t ih =>
    by_cases hk : keep m = true <;>
      by_cases ho : (m.projectId == p.id && m.role == "OWNER") = true <;>
      simp [List.filter_cons, hk, ho, ih]

/-! ### A concrete example store (used by witnesses and counterexamples)

User 1 owns project 10 (role OWNER); user 2 is a MEMBER; user 3 is not a
member of anything.  Task 20 (project 10) was created by user 1 and is
assigned to user 2; task 21 is archived with status "Done".  Comment 30 on
task 20 was authored by user 3, who is not a project member. -/

def exProj : Project :=
  { id := 10, name := "Alpha Launch", description := "first",
    status := "ACTIVE", priority := "MEDIUM", color := "#3B82F6",
    dueDate := none, ownerId := 1 }

def exTask20 : Task :=
  { id := 20, title := "Fix bug", description := "", projectId := 10,
    creatorId := 1, assigneeId := some 2, status := "To Do",
    priority := "MEDIUM", dueDate := none, estimatedHours := none,
    completedDate := none, position := 0, isArchived := false }

def exTask21 : Task :=
  { id := 21, title := "Old", description := "", projectId := 10,
    creatorId := 1, assigneeId := none, status := "Done",
    priority := "LOW", dueDate := none, estimatedHours := none,
    completedDate := some 3, position := 0, isArchived := true }

def exComment : Comment := ⟨30, 20, 3, "hi", false⟩

def exSt : State :=
  { users := [⟨1, "o@x.com"⟩, ⟨2, "b@x.com"⟩, ⟨3, "c@x.com"⟩],
    projects := [exProj],
    members := [⟨1, 10, "OWNER"⟩, ⟨2, 10, "MEMBER"⟩],
    columns := defaultColumns 10,
    projectTags := [],
    tasks := [exTask20, exTask21],
    comments := [exComment],
    watchers := [⟨1, 20⟩, ⟨2, 20⟩],
    taskTags := [],
    nextId := 40 }

/-- A `createTask` argument with initial status "Done". -/
def exDoneData : TaskData :=
  ⟨"Ship it", "", none, some "Done", none, none, none, []⟩

/-- A `createProject` argument. -/
def exProjData : ProjectData :=
  ⟨"Sprint 1", "demo", none, none, none, []⟩

/-! ### Further helper lemmas -/

theorem getTaskById_ok {st : State} {t : Task} {u : Id}
    (hft : st.tasks.find? (fun x => x.id == t.id) = some t)
    (hmem : isProjectMember st t.projectId u = true) :
    getTaskById st t.id u = Except.ok t := by
  simp only [getTaskById, hft]
  simp [hmem]

theorem getTaskById_denied {st : State} {t : Task} {u : Id}
    (hft : st.tasks.find? (fun x => x.id == t.id) = some t)
    (hmem : isProjectMember st t.projectId u = false) :
    getTaskById st t.id u = Except.error Err.notAProjectMember := by
  simp only [getTaskById, hft]
  simp [hmem]

/-! ### Claims -/

/-- C1: the claim says `listForUser` (`getUserProjects`) never returns a
project in which the user is neither owner nor member, for any combination of
filters.  The code violates it: a truthy `search` filter OVERWRITES the
`where.OR` owner-or-member condition with the name/description substring
match, so user 3 — who has access to no project at all (first conjunct) and
correctly receives an empty listing without a search term (third conjunct) —
is returned project 10 when searching for "alpha" (second conjunct). -/
theorem C1_search_bypasses_access_filter :
    (exSt.projects.all (fun p => !(accessibleBy exSt p 3))) = true ∧
    (getUserProjects exSt 3 ⟨none, some "alpha", 1, 10⟩).1 = [exProj] ∧
    (getUserProjects exSt 3 ⟨none, none, 1, 10⟩).1 = [] := by
  decide

/-- C2, counterexample: the claim says that after ANY successful `addMember`
call exactly one ProjectMember row of the project has role OWNER.  The
service uppercases the requested role without restricting it, so the project
owner can call `addMember` with role "owner" for user 3 ("C@X.com" is
lowercased to the stored email), which succeeds and leaves project 10 with
two OWNER rows. -/
theorem C2_second_owner_via_addMember :
    ownerInvariant exSt = true ∧
    isOkB (addMember exSt 10 "C@X.com" "owner" 1) = true ∧
    ownerInvariant (okState (addMember exSt 10 "C@X.com" "owner" 1)) = false := by
  decide

/-- C3: `getProjectById` produces the identical error kind whether the
project id names no existing project (`pid1`) or the project exists but the
caller is neither owner nor member (`pid2`): both runs return the single
`'Project not found or access denied'` error, so the two failure cases are
indistinguishable to the caller. -/
theorem C3_indistinguishable_errors (st : State) (u pid1 pid2 : Id) (p : Project)
    (h1 : ∀ q ∈ st.projects, q.id ≠ pid1)
    (hp : p ∈ st.projects) (hpid : p.id = pid2)
    (hacc : accessibleBy st p u = false)
    (hnd : nodupB (st.projects.map (fun q => q.id)) = true) :
    getProjectById st pid1 u = Except.error Err.projectNotFoundOrDenied ∧
    getProjectById st pid2 u = Except.error Err.projectNotFoundOrDenied := by
  constructor
  · simp only [getProjectById]
    have hf : st.projects.find? (fun q => q.id == pid1 && accessibleBy st q u) = none := by
      rw [List.find?_eq_none]
      intro q hq
      simp only [Bool.and_eq_true, beq_iff_eq, not_and]
      intro hqe
      exact absurd hqe (h1 q hq)
    rw [hf]
  · simp only [getProjectById]
    have hf : st.projects.find? (fun q => q.id == pid2 && accessibleBy st q u) = none := by
      rw [List.find?_eq_none]
      intro q hq
      simp only [Bool.and_eq_true, beq_iff_eq, not_and]
      intro hqe
      have hqp : q = p := nodupB_inj (fun r => r.id) st.projects hnd q hq p hp
        (show q.id = p.id by rw [hqe, hpid])
      rw [hqp, hacc]
      simp
    rw [hf]

/-- C3, witness: in the example store, project id 99 does not exist and
project 10 exists but is inaccessible to user 3; both runs of
`getProjectById` return the same error kind. -/
theorem C3_indistinguishable_errors_witness :
    getProjectById exSt 99 3 = Except.error Err.projectNotFoundOrDenied ∧
    getProjectById exSt 10 3 = Except.error Err.projectNotFoundOrDenied :=
  C3_indistinguishable_errors exSt 3 99 10 exProj (by decide) (by decide)
    (by decide) (by decide) (by decide)

/-- C9: `updateComment` and `deleteComment` reach `getTaskById` — and with it
the project-membership gate — before any authorship check, so the original
author of a comment who is no longer a project member receives the
membership access-denied error (`'Access denied - not a project member'`)
from both operations and cannot edit or delete their own comment. -/
theorem C9_comment_ops_require_membership (st : State) (t : Task) (c : Comment)
    (u : Id) (content : String)
    (hft : st.tasks.find? (fun x => x.id == t.id) = some t)
    (hct : c.taskId = t.id) (hauth : c.authorId = u)
    (hmem : isProjectMember st t.projectId u = false) :
    updateComment st t.id c.id content u = Except.error Err.notAProjectMember ∧
    deleteComment st t.id c.id u = Except.error Err.notAProjectMember := by
  have hg := getTaskById_denied hft hmem
  constructor
  · simp only [updateComment, hg]
  · simp only [deleteComment, hg]

/-- C9, witness: user 3 authored comment 30 on task 20 but is not a member of
project 10; both comment operations fail with the membership error. -/
theorem C9_comment_ops_require_membership_witness :
    updateComment exSt 20 30 "edited" 3 = Except.error Err.notAProjectMember ∧
    deleteComment exSt 20 30 3 = Except.error Err.notAProjectMember :=
  C9_comment_ops_require_membership exSt exTask20 exComment 3 "edited"
    (by decide) (by decide) (by decide) (by decide)

/-- C10: archiving hides a task only from the project listing.
`getProjectTasks` filters on `isArchived: false`, so an archived task never
appears in the listing, while `getTaskById` applies no archived filter, so any
member can still retrieve the archived task by id — and `addComment`, which
goes through `getTaskById`, still operates on it. -/
theorem C10_archived_hidden_from_listing_only (st : State) (t : Task) (u : Id)
    (content : String)
    (hft : st.tasks.find? (fun x => x.id == t.id) = some t)
    (harch : t.isArchived = true)
    (hmem : isProjectMember st t.projectId u = true) :
    (∃ l, getProjectTasks st t.projectId u noTaskFilters = Except.ok l ∧ t ∉ l) ∧
    getTaskById st t.id u = Except.ok t ∧
    (∃ st2 c, addComment st t.id content u = Except.ok (st2, c)) := by
  have hg := getTaskById_ok hft hmem
  refine ⟨⟨st.tasks.filter (taskWhere t.projectId noTaskFilters), ?_, ?_⟩, hg, ?_⟩
  · simp [getProjectTasks, hmem]
  · intro hmemf
    have hw := (List.mem_filter.mp hmemf).2
    simp [taskWhere, harch] at hw
  · simp only [addComment, hg]
    exact ⟨_, _, rfl⟩

/-- C10, witness: task 21 of project 10 is archived; member 2 does not see it
in the listing but can fetch it by id and comment on it. -/
theorem C10_archived_hidden_from_listing_only_witness :
    (∃ l, getProjectTasks exSt 10 2 noTaskFilters = Except.ok l ∧ exTask21 ∉ l) ∧
    getTaskById exSt 21 2 = Except.ok exTask21 ∧
    (∃ st2 c, addComment exSt 21 "ping" 2 = Except.ok (st2, c)) :=
  C10_archived_hidden_from_listing_only exSt exTask21 2 "ping"
    (by decide) (by decide) (by decide)

/-- C4: for a task found in the store and a caller who is a member of its
project, `updateTask` passes its permission check exactly when the caller is
the task's creator, its current assignee, or holds OWNER or ADMIN on the
project (failing with the insufficient-permissions error otherwise), while
`deleteTask` passes exactly when the caller is the creator or holds
OWNER/ADMIN — so a caller who is only the current assignee may update but not
delete. -/
theorem C4_update_vs_delete_permissions (st : State) (t : Task) (p : TaskPatch)
    (u : Id) (now : Nat)
    (hft : st.tasks.find? (fun x => x.id == t.id) = some t)
    (hmem : isProjectMember st t.projectId u = true) :
    (isOkB (updateTask st t.id p u now) =
      (t.creatorId == u || t.assigneeId == some u ||
       getUserRole st t.projectId u == some "OWNER" ||
       getUserRole st t.projectId u == some "ADMIN")) ∧
    ((t.creatorId == u || t.assigneeId == some u ||
      getUserRole st t.projectId u == some "OWNER" ||
      getUserRole st t.projectId u == some "ADMIN") = false →
      updateTask st t.id p u now = Except.error Err.insufficientToEditTask) ∧
    (isOkB (deleteTask st t.id u) =
      (t.creatorId == u ||
       getUserRole st t.projectId u == some "OWNER" ||
       getUserRole st t.projectId u == some "ADMIN")) ∧
    ((t.creatorId == u ||
      getUserRole st t.projectId u == some "OWNER" ||
      getUserRole st t.projectId u == some "ADMIN") = false →
      deleteTask st t.id u = Except.error Err.insufficientToDeleteTask) ∧
    (t.assigneeId = some u → (t.creatorId == u) = false →
     (getUserRole st t.projectId u == some "OWNER") = false →
     (getUserRole st t.projectId u == some "ADMIN") = false →
      isOkB (updateTask st t.id p u now) = true ∧
      deleteTask st t.id u = Except.error Err.insufficientToDeleteTask) := by
  have hg := getTaskById_ok hft hmem
  have heq : (t.creatorId == u || t.assigneeId == some u ||
      getUserRole st t.projectId u == some "OWNER" ||
      getUserRole st t.projectId u == some "ADMIN") = canEditTask st t u := rfl
  have hdq : (t.creatorId == u ||
      getUserRole st t.projectId u == some "OWNER" ||
      getUserRole st t.projectId u == some "ADMIN") = canDeleteTask st t u := rfl
  have hupdT : canEditTask st t u = true → isOkB (updateTask st t.id p u now) = true := by
    intro hce
    simp [updateTask, hg, hce, isOkB]
  have hupdF : canEditTask st t u = false →
      updateTask st t.id p u now = Except.error Err.insufficientToEditTask := by
    intro hce
    simp [updateTask, hg, hce]
  have hdelT : canDeleteTask st t u = true → isOkB (deleteTask st t.id u) = true := by
    intro hcd
    simp [deleteTask, hg, hcd, isOkB]
  have hdelF : canDeleteTask st t u = false →
      deleteTask st t.id u = Except.error Err.insufficientToDeleteTask := by
    intro hcd
    simp [deleteTask, hg, hcd]
  rw [heq, hdq]
  refine ⟨?_, ?_, ?_, ?_, ?_⟩
  · cases hce : canEditTask st t u
    · rw [hupdF hce]; rfl
    · exact hupdT hce
  · exact hupdF
  · cases hcd : canDeleteTask st t u
    · rw [hdelF hcd]; rfl
    · exact hdelT hcd
  · exact hdelF
  · intro hassn hcr how had
    constructor
    · refine hupdT ?_
      simp [canEditTask, hassn]
    · refine hdelF ?_
      simp [canDeleteTask, hcr, how, had]

/-- C4, witness: user 2 is the assignee (but not creator, and role MEMBER) of
task 20 in the example store: `updateTask` succeeds, `deleteTask` fails with
the insufficient-permissions error. -/
theorem C4_update_vs_delete_permissions_witness :
    isOkB (updateTask exSt 20 default 2 7) = true ∧
    deleteTask exSt 20 2 = Except.error Err.insufficientToDeleteTask :=
  (C4_update_vs_delete_permissions exSt exTask20 default 2 7
    (by decide) (by decide)).2.2.2.2 (by decide) (by decide) (by decide) (by decide)

/-- C6, counterexample: the claim says `removeMember(P, owner, caller)` fails
with `CannotRemoveOwner` for EVERY caller.  Caller 3 is not a member of
project 10, so the access check fires first and the failure kind is the
not-found-or-denied error, not `CannotRemoveOwner` (a non-editor member gets
the insufficient-permissions error likewise). -/
theorem C6_nonowner_error_kinds_differ :
    exProj.ownerId = 1 ∧ exProj ∈ exSt.projects ∧
    removeMember exSt 10 1 3 = Except.error Err.projectNotFoundOrDenied ∧
    removeMember exSt 10 1 2 = Except.error Err.insufficientToRemoveMembers ∧
    Err.projectNotFoundOrDenied ≠ Err.cannotRemoveOwner := by
  decide

/-- C6, amended: for every project (identified by `pid`, with duplicate-free
project ids) and every caller, `removeMember` targeting the project's owner
always fails — the owner's membership row is never deleted — and the failure
kind is `CannotRemoveOwner` precisely when the caller passes the access and
editor checks, i.e. holds an OWNER or ADMIN membership row of the project. -/
theorem C6_removeMember_owner_always_fails (st : State) (pid o caller : Id)
    (p : Project)
    (hfp : st.projects.find? (fun q => q.id == pid) = some p)
    (hown : p.ownerId = o)
    (hnd : nodupB (st.projects.map (fun q => q.id)) = true) :
    (∀ st2, removeMember st pid o caller ≠ Except.ok st2) ∧
    (isEditorOf st pid caller = true →
      removeMember st pid o caller = Except.error Err.cannotRemoveOwner) := by
  have hpmem : p ∈ st.projects := List.mem_of_find?_eq_some hfp
  have hpid : p.id = pid := by
    have := List.find?_some hfp
    simpa using this
  have hsame : ∀ q, getProjectById st pid caller = Except.ok q → q = p := by
    intro q hq
    simp only [getProjectById] at hq
    cases hfq : st.projects.find? (fun r => r.id == pid && accessibleBy st r caller) with
    | none => rw [hfq] at hq; cases hq
    | some r =>
      rw [hfq] at hq
      cases hq
      have hrmem : q ∈ st.projects := List.mem_of_find?_eq_some hfq
      have hrid : q.id = pid := by
        have := List.find?_some hfq
        simp only [Bool.and_eq_true, beq_iff_eq] at this
        exact this.1
      exact nodupB_inj (fun r => r.id) st.projects hnd q hrmem p hpmem
        (show q.id = p.id by rw [hrid, hpid])
  have hred : ∀ q, getProjectById st pid caller = Except.ok q →
      removeMember st pid o caller =
        (if isEditorOf st pid caller = true then Except.error Err.cannotRemoveOwner
         else Except.error Err.insufficientToRemoveMembers) := by
    intro q hgp
    have hq : q = p := hsame q hgp
    subst hq
    simp only [removeMember, hgp]
    by_cases hed : isEditorOf st pid caller = true
    · simp [hed, hown]
    · simp [hed]
  constructor
  · intro st2 hok
    cases hgp : getProjectById st pid caller with
    | error e => simp [removeMember, hgp] at hok
    | ok q =>
      rw [hred q hgp] at hok
      by_cases hed : isEditorOf st pid caller = true <;> simp [hed] at hok
  · intro hed
    have hmm : ∃ m, findMember st pid caller = some m ∧
        (m.role == "OWNER" || m.role == "ADMIN") = true := by
      simp only [isEditorOf] at hed
      cases hfm : findMember st pid caller with
      | none => rw [hfm] at hed; cases hed
      | some m => rw [hfm] at hed; exact ⟨m, rfl, hed⟩
    obtain ⟨m, hfm, _⟩ := hmm
    have hmmem : m ∈ st.members := List.mem_of_find?_eq_some hfm
    have hmprop := List.find?_some hfm
    simp only [Bool.and_eq_true, beq_iff_eq] at hmprop
    have hacc : accessibleBy st p caller = true := by
      simp only [accessibleBy, Bool.or_eq_true, List.any_eq_true]
      refine Or.inr ⟨m, hmmem, ?_⟩
      simp [hmprop.1, hmprop.2, hpid]
    have hfind : st.projects.find? (fun r => r.id == pid && accessibleBy st r caller) ≠ none := by
      intro hnone
      rw [List.find?_eq_none] at hnone
      exact hnone p hpmem (by simp [hpid, hacc])
    cases hfq : st.projects.find? (fun r => r.id == pid && accessibleBy st r caller) with
    | none => exact absurd hfq hfind
    | some q =>
      have hgp : getProjectById st pid caller = Except.ok q := by
        simp only [getProjectById, hfq]
      rw [hred q hgp]
      simp [hed]

/-- C6, witness: the owner (an OWNER-role member, hence an editor) calling
`removeMember` on themself receives `CannotRemoveOwner`. -/
theorem C6_removeMember_owner_always_fails_witness :
    removeMember exSt 10 1 1 = Except.error Err.cannotRemoveOwner :=
  (C6_removeMember_owner_always_fails exSt 10 1 1 exProj
    (by decide) (by decide) (by decide)).2 (by decide)

/-- C7: for every `createTask` by a project member (with a valid assignee if
one is given), the call succeeds and the new task's status lane defaults to
"To Do" when omitted; its position is 0 when the project+status lane was
empty, and otherwise one plus the maximum position among the existing lane
tasks (strictly above all of them); and the previously existing tasks — with
their positions — are unchanged, the new row being appended. -/
theorem C7_position_append_semantics (st : State) (d : TaskData) (pid c : Id)
    (hmem : isProjectMember st pid c = true)
    (hassn : (match d.assigneeId with
              | some a => isProjectMember st pid a
              | none => true) = true) :
    ∃ st2 task, createTask st d pid c = Except.ok (st2, task) ∧
      st2.tasks = st.tasks ++ [task] ∧
      task.status = jsOr d.status "To Do" ∧
      (laneOf st pid task.status = [] → task.position = 0) ∧
      (∀ x ∈ laneOf st pid task.status, x.position < task.position) ∧
      (laneOf st pid task.status ≠ [] →
        ∃ x ∈ laneOf st pid task.status, task.position = x.position + 1) := by
  have hne : (match d.assigneeId with
      | some a => !(isProjectMember st pid a)
      | none => false) = false := by
    cases ha : d.assigneeId with
    | none => rfl
    | some a =>
      rw [ha] at hassn
      have h2 : isProjectMember st pid a = true := hassn
      simp [h2]
  have hok : createTask st d pid c =
      Except.ok (addTagsForTask pid (builtTask st d pid c).id d.tags
        { st with
          tasks := st.tasks ++ [builtTask st d pid c],
          watchers := st.watchers ++
            (⟨c, (builtTask st d pid c).id⟩ ::
              (match d.assigneeId with
               | some a => if a ≠ c then [⟨a, (builtTask st d pid c).id⟩] else []
               | none => [])),
          nextId := st.nextId + 1 }, builtTask st d pid c) := by
    simp only [createTask]
    rw [if_neg (by simp [hmem]), if_neg (by simp [hne])]
  have hst : (builtTask st d pid c).status = jsOr d.status "To Do" := rfl
  have hpos : (builtTask st d pid c).position =
      nextPosition st pid (jsOr d.status "To Do") := rfl
  refine ⟨_, builtTask st d pid c, hok, ?_, hst, ?_, ?_, ?_⟩
  · rw [addTagsForTask_tasks]
  · intro hlane
    rw [hst] at hlane
    rw [hpos, nextPosition, hlane]
    simp [bestPosition]
  · intro x hx
    rw [hst] at hx
    rw [hpos, nextPosition]
    cases hbp : bestPosition (laneOf st pid (jsOr d.status "To Do")) with
    | none =>
      rw [bestPosition_eq_none.mp hbp] at hx
      cases hx
    | some m =>
      have hle := bestPosition_ge hbp x hx
      show x.position < m + 1
      omega
  · intro hlane
    rw [hst] at hlane ⊢
    rw [hpos, nextPosition]
    cases hbp : bestPosition (laneOf st pid (jsOr d.status "To Do")) with
    | none => exact absurd (bestPosition_eq_none.mp hbp) hlane
    | some m =>
      obtain ⟨x, hx, hxp⟩ := bestPosition_mem hbp
      exact ⟨x, hx, by rw [hxp]⟩

/-- C7, witness: member 1 creates a task with status "Done" in project 10; the
lane already holds (archived) task 21 at position 0, so the new task gets
position 1, appended after the existing rows. -/
theorem C7_position_append_semantics_witness :
    ∃ st2 task, createTask exSt exDoneData 10 1 = Except.ok (st2, task) ∧
      st2.tasks = exSt.tasks ++ [task] ∧
      task.status = jsOr exDoneData.status "To Do" ∧
      (laneOf exSt 10 task.status = [] → task.position = 0) ∧
      (∀ x ∈ laneOf exSt 10 task.status, x.position < task.position) ∧
      (laneOf exSt 10 task.status ≠ [] →
        ∃ x ∈ laneOf exSt 10 task.status, task.position = x.position + 1) :=
  C7_position_append_semantics exSt exDoneData 10 1 (by decide) (by decide)

/-- C8: `createProject` followed by `getById` (with its column include, which
orders by ascending `order`) returns the created project together with exactly
the four default columns To Do(0, #EF4444), In Progress(1, #F59E0B),
Review(2, #8B5CF6), Done(3, #10B981), in that order.  (`createProject` accepts
no custom columns at all, so this holds for every argument object.) -/
theorem C8_default_columns_roundtrip (st : State) (d : ProjectData) (o : Id)
    (hwf : WF st = true) :
    getProjectByIdFull (createProject st d o).1 (createProject st d o).2.id o =
      Except.ok ((createProject st d o).2,
        [ { projectId := (createProject st d o).2.id, name := "To Do",
            order := 0, color := "#EF4444" },
          { projectId := (createProject st d o).2.id, name := "In Progress",
            order := 1, color := "#F59E0B" },
          { projectId := (createProject st d o).2.id, name := "Review",
            order := 2, color := "#8B5CF6" },
          { projectId := (createProject st d o).2.id, name := "Done",
            order := 3, color := "#10B981" } ]) := by
  simp only [WF, Bool.and_eq_true] at hwf
  obtain ⟨⟨⟨⟨⟨hproj, hnd⟩, hmemb⟩, hcol⟩, htask⟩, hcom⟩ := hwf
  rw [List.all_eq_true] at hproj hcol
  simp only [createProject]
  simp only [getProjectByIdFull, getProjectById]
  have hfind : ((st.projects ++
      [{ id := st.nextId, name := d.name, description := d.description,
         status := "ACTIVE", priority := d.priority.getD "MEDIUM",
         color := d.color.getD "#3B82F6", dueDate := d.dueDate,
         ownerId := o : Project }]).find? (fun p => p.id == st.nextId &&
           accessibleBy { st with
             projects := st.projects ++
               [{ id := st.nextId, name := d.name, description := d.description,
                  status := "ACTIVE", priority := d.priority.getD "MEDIUM",
                  color := d.color.getD "#3B82F6", dueDate := d.dueDate,
                  ownerId := o : Project }],
             members := st.members ++ [⟨o, st.nextId, "OWNER"⟩],
             columns := st.columns ++ defaultColumns st.nextId,
             projectTags := st.projectTags ++
               (d.tags.map (fun t => ProjectTag.mk (st.nextId + 1) st.nextId t)),
             nextId := st.nextId + 1 } p o)) = some
      { id := st.nextId, name := d.name, description := d.description,
        status := "ACTIVE", priority := d.priority.getD "MEDIUM",
        color := d.color.getD "#3B82F6", dueDate := d.dueDate,
        ownerId := o : Project } := by
    rw [find?_append_of_none]
    · simp [List.find?, accessibleBy]
    · intro q hq
      have hlt := hproj q hq
      simp only [decide_eq_true_eq] at hlt
      simp only [Bool.and_eq_false_iff]
      left
      simp only [beq_eq_false_iff_ne]
      exact Nat.ne_of_lt hlt
  rw [hfind]
  simp only [columnsOf, List.filter_append]
  have hnilcols : st.columns.filter (fun cc => cc.projectId == st.nextId) = [] := by
    rw [List.filter_eq_nil_iff]
    intro cc hcc
    have hlt := hcol cc hcc
    simp only [decide_eq_true_eq] at hlt
    simp only [beq_eq_false_iff_ne, ne_eq, Bool.not_eq_true]
    exact Nat.ne_of_lt hlt
  rw [hnilcols]
  simp [defaultColumns, sortCols, insertCol]

/-- C8, witness: the round trip on the concrete example store. -/
theorem C8_default_columns_roundtrip_witness :
    getProjectByIdFull (createProject exSt exProjData 1).1
        (createProject exSt exProjData 1).2.id 1 =
      Except.ok ((createProject exSt exProjData 1).2,
        [ { projectId := (createProject exSt exProjData 1).2.id, name := "To Do",
            order := 0, color := "#EF4444" },
          { projectId := (createProject exSt exProjData 1).2.id, name := "In Progress",
            order := 1, color := "#F59E0B" },
          { projectId := (createProject exSt exProjData 1).2.id, name := "Review",
            order := 2, color := "#8B5CF6" },
          { projectId := (createProject exSt exProjData 1).2.id, name := "Done",
            order := 3, color := "#10B981" } ]) :=
  C8_default_columns_roundtrip exSt exProjData 1 (by decide)

/-- C2, amended: the single-OWNER invariant (exactly one OWNER membership row
per project, and it is the project's `ownerId`) holds after `createProject`,
after any successful `removeMember`, and after any successful `addMember`
whose requested role does not uppercase to "OWNER" (the restriction the HTTP
route's role validation enforces) — but not, as the claim states, after ANY
successful `addMember`, since the service itself accepts role "owner"/"OWNER"
(see the counterexample). -/
theorem C2_owner_unique_after_ops (st : State)
    (hwf : WF st = true) (hinv : ownerInvariant st = true) :
    (∀ d ownerId, ownerInvariant (createProject st d ownerId).1 = true) ∧
    (∀ pid email role uid st2, upperStr role ≠ "OWNER" →
        addMember st pid email role uid = Except.ok st2 →
        ownerInvariant st2 = true) ∧
    (∀ pid mid uid st2, removeMember st pid mid uid = Except.ok st2 →
        ownerInvariant st2 = true) := by
  simp only [WF, Bool.and_eq_true] at hwf
  obtain ⟨⟨⟨⟨⟨hproj, hnd⟩, hmemb⟩, hcol⟩, htask⟩, hcom⟩ := hwf
  rw [List.all_eq_true] at hproj hmemb
  refine ⟨?_, ?_, ?_⟩
  · -- createProject
    intro d ownerId
    simp only [createProject, ownerInvariant]
    rw [List.all_append, Bool.and_eq_true]
    simp only [ownerInvariant, List.all_eq_true] at hinv
    constructor
    · rw [List.all_eq_true]
      intro p hp
      have hlt : p.id < st.nextId := by simpa using hproj p hp
      have hrow : ownerRows (st.members ++ [⟨ownerId, st.nextId, "OWNER"⟩]) p =
          ownerRows st.members p := by
        rw [ownerRows_append]
        have hne : ((⟨ownerId, st.nextId, "OWNER"⟩ : ProjectMember).projectId == p.id) = false := by
          simp only [beq_eq_false_iff_ne]
          exact fun h => absurd h.symm (Nat.ne_of_lt hlt)
        simp [hne]
      simp only [ownerRowOk, hrow]
      exact hinv p hp
    · simp only [List.all_cons, List.all_nil, Bool.and_true]
      have hnil : ownerRows st.members
          { id := st.nextId, name := d.name, description := d.description,
            status := "ACTIVE", priority := d.priority.getD "MEDIUM",
            color := d.color.getD "#3B82F6", dueDate := d.dueDate,
            ownerId : Project } = [] := by
        rw [ownerRows, List.filter_eq_nil_iff]
        intro m hm
        have hlt : m.projectId < st.nextId := by simpa using hmemb m hm
        simp only [Bool.and_eq_true, beq_iff_eq, not_and]
        intro hmp
        exact absurd hmp (Nat.ne_of_lt hlt)
      simp only [ownerRowOk, ownerRows_append, hnil]
      simp
  · -- addMember with a role that does not uppercase to OWNER
    intro pid email role uid st2 hrole hok
    simp only [addMember] at hok
    split at hok
    · exact absurd hok (by simp)
    · split at hok
      · exact absurd hok (by simp)
      · split at hok
        · exact absurd hok (by simp)
        · rename_i u hu
          split at hok
          · exact absurd hok (by simp)
          · injection hok with h
            subst h
            simp only [ownerInvariant, List.all_eq_true] at hinv ⊢
            intro p hp
            have hrow : ownerRows (st.members ++ [⟨u.id, pid, upperStr role⟩]) p =
                ownerRows st.members p := by
              rw [ownerRows_append]
              have hne : ((⟨u.id, pid, upperStr role⟩ : ProjectMember).role == "OWNER") = false := by
                simp only [beq_eq_false_iff_ne]
                exact hrole
              simp [hne]
            simp only [ownerRowOk, hrow]
            exact hinv p hp
  · -- removeMember
    intro pid mid uid st2 hok
    simp only [removeMember] at hok
    split at hok
    · exact absurd hok (by simp)
    · rename_i pq hgp
      split at hok
      · exact absurd hok (by simp)
      · split at hok
        · exact absurd hok (by simp)
        · rename_i hed hnotown
          split at hok
          · injection hok with h
            subst h
            -- the fetched project pq has id pid and is in the store
            have hqmem : pq ∈ st.projects := by
              simp only [getProjectById] at hgp
              cases hfq : st.projects.find?
                  (fun r => r.id == pid && accessibleBy st r uid) with
              | none => rw [hfq] at hgp; cases hgp
              | some r =>
                rw [hfq] at hgp
                cases hgp
                exact List.mem_of_find?_eq_some hfq
            have hqid : pq.id = pid := by
              simp only [getProjectById] at hgp
              cases hfq : st.projects.find?
                  (fun r => r.id == pid && accessibleBy st r uid) with
              | none => rw [hfq] at hgp; cases hgp
              | some r =>
                rw [hfq] at hgp
                cases hgp
                have := List.find?_some hfq
                simp only [Bool.and_eq_true, beq_iff_eq] at this
                exact this.1
            have hqown : pq.ownerId ≠ mid := by
              intro hcontra
              exact hnotown (by rw [hcontra]; exact beq_self_eq_true mid)
            simp only [ownerInvariant, List.all_eq_true] at hinv ⊢
            intro p hp
            have hok1 := hinv p hp
            simp only [ownerRowOk] at hok1 ⊢
            rw [ownerRows_filter]
            cases hrows : ownerRows st.members p with
            | nil => rw [hrows] at hok1; simp at hok1
            | cons m rest =>
              cases rest with
              | cons m2 r2 => rw [hrows] at hok1; simp at hok1
              | nil =>
                rw [hrows] at hok1
                have hmu : m.userId = p.ownerId := by simpa using hok1
                have hmmem : m ∈ ownerRows st.members p := by rw [hrows]; simp
                have hmpred := (List.mem_filter.mp hmmem).2
                simp only [Bool.and_eq_true, beq_iff_eq] at hmpred
                have hkeep : (decide ¬(m.userId == mid && m.projectId == pid) = true) = true := by
                  simp only [decide_eq_true_eq, Bool.and_eq_true, beq_iff_eq, not_and]
                  intro hmid hmpid
                  -- m.projectId = p.id = pid forces p = pq, whose owner is not mid
                  have hpid : p.id = pid := by rw [← hmpred.1, hmpid]
                  have hpq : p = pq := nodupB_inj (fun r => r.id) st.projects hnd p hp pq hqmem
                    (show p.id = pq.id by rw [hpid, hqid])
                  rw [hmu, hpq] at hmid
                  exact hqown hmid
                simp only [List.filter_cons, List.filter_nil]
                rw [if_pos (by simpa using hkeep)]
                simpa using hok1
          · exact absurd hok (by simp)

/-- C2, witness: the preserved invariant evaluated after a `createProject` on
the example store. -/
theorem C2_owner_unique_after_ops_witness :
    ownerInvariant (createProject exSt exProjData 5).1 = true :=
  (C2_owner_unique_after_ops exSt (by decide) (by decide)).1 exProjData 5

/-- C5, counterexample: the claim says ANY operation that sets the status to
Done or Completed sets `completedDate` to the current time.  `createTask` is
such an operation (its insert includes the status field) but never writes
`completedDate`: creating a task with initial status "Done" succeeds and
leaves `completedDate` null. -/
theorem C5_createTask_done_leaves_null :
    isOkB (createTask exSt exDoneData 10 1) = true ∧
    (okTask (createTask exSt exDoneData 10 1)).status = "Done" ∧
    (okTask (createTask exSt exDoneData 10 1)).completedDate = none := by
  decide

/-- C5, amended: `completedDate` is derived only by `updateTask` (and is
never independently writable there): `createTask` always leaves it null,
whatever the initial status; a `completedDate` value supplied in the update
patch has no effect on the result; and on a permitted update the stored task
is `applyPatch t p now`, whose `completedDate` is `now` when the incoming
status is Done or Completed, null when a non-empty status outside that set is
supplied, and untouched when the status is omitted (the empty-string status —
falsy in the source — also leaves it untouched). -/
theorem C5_completedDate_updateTask_only :
    (∀ st d pid c st2 task, createTask st d pid c = Except.ok (st2, task) →
        task.completedDate = none) ∧
    (∀ st id p u now v,
        updateTask st id { p with completedDate := v } u now =
          updateTask st id p u now) ∧
    (∀ st t p u now, st.tasks.find? (fun x => x.id == t.id) = some t →
        isProjectMember st t.projectId u = true →
        canEditTask st t u = true →
        ∃ st2, updateTask st t.id p u now = Except.ok (st2, applyPatch t p now) ∧
          ((∃ s, p.status = some s ∧ (s = "Done" ∨ s = "Completed")) →
            (applyPatch t p now).completedDate = some now) ∧
          ((∃ s, p.status = some s ∧ s ≠ "Done" ∧ s ≠ "Completed" ∧ s ≠ "") →
            (applyPatch t p now).completedDate = none) ∧
          (p.status = none →
            (applyPatch t p now).completedDate = t.completedDate)) := by
  refine ⟨?_, ?_, ?_⟩
  · intro st d pid c st2 task hok
    simp only [createTask] at hok
    split at hok
    · exact absurd hok (by simp)
    · split at hok
      · exact absurd hok (by simp)
      · injection hok with h
        have htask : task = builtTask st d pid c := (congrArg Prod.snd h).symm
        rw [htask]
        rfl
  · intro st id p u now v
    cases p
    cases hg : getTaskById st id u with
    | error e => simp [updateTask, hg]
    | ok t => simp [updateTask, hg, applyPatch]
  · intro st t p u now hft hmem hce
    have hg := getTaskById_ok hft hmem
    have hupd : ∃ st2, updateTask st t.id p u now =
        Except.ok (st2, applyPatch t p now) := by
      simp only [updateTask, hg]
      rw [if_neg (by simp [hce])]
      exact ⟨_, rfl⟩
    obtain ⟨st2, hupd⟩ := hupd
    refine ⟨st2, hupd, ?_, ?_, ?_⟩
    · rintro ⟨s, hs, hsd⟩
      simp only [applyPatch]
      rw [hs]
      rcases hsd with h | h <;> rw [h] <;> simp
    · rintro ⟨s, hs, h1, h2, h3⟩
      simp only [applyPatch]
      rw [hs]
      have hb1 : (s == "Done") = false := by simp [h1]
      have hb2 : (s == "Completed") = false := by simp [h2]
      have hb3 : (s == "") = false := by simp [h3]
      simp [hb1, hb2, hb3]
    · intro hs
      simp only [applyPatch]
      rw [hs]

/-- The update patch used by the C5 witness: sets only the status, to "Done". -/
def exPatchDone : TaskPatch := { (default : TaskPatch) with status := some "Done" }

/-- C5, witness: the amended derivation rule instantiated on a concrete
permitted update of task 20 by its assignee, with status "Done" and now = 7. -/
theorem C5_completedDate_updateTask_only_witness :
    ∃ st2, updateTask exSt 20 exPatchDone 2 7 =
        Except.ok (st2, applyPatch exTask20 exPatchDone 7) ∧
      ((∃ s, exPatchDone.status = some s ∧ (s = "Done" ∨ s = "Completed")) →
        (applyPatch exTask20 exPatchDone 7).completedDate = some 7) ∧
      ((∃ s, exPatchDone.status = some s ∧ s ≠ "Done" ∧ s ≠ "Completed" ∧ s ≠ "") →
        (applyPatch exTask20 exPatchDone 7).completedDate = none) ∧
      (exPatchDone.status = none →
        (applyPatch exTask20 exPatchDone 7).completedDate = exTask20.completedDate) :=
  C5_completedDate_updateTask_only.2.2 exSt exTask20 exPatchDone 2 7
    (by decide) (by decide) (by decide)

end PMT
